import Mathlib

/-!
Shallow embedding of the cage-keeper (src/cage_keeper.py).

The keeper watches a MakerDAO-style deployment for Emergency Shutdown and,
once the shutdown is final, submits the facilitation and thaw transaction
sequences.  We embed the per-block callback and the pure analytical helpers:

* fixed-point (Wad/Ray) risk arithmetic for the urn scanner,
* auction classification across the four auction-house variants,
* the confirmation-counting / facilitation / thaw state machine.

Machine quantities (Wad 10^18, Ray 10^27, Rad 10^45 fixed-point values, all
non-negative on-chain) are modelled as Nat holding the raw integer value.
Mutating contract calls are modelled as an emitted list of Call values, in
submission order; every chain read the callback performs is a field of
ChainState.
-/

namespace CageKeeper

/-- An ilk (collateral type) as read from Vat.ilks: the debt-scaling rate
(Ray), the risk-adjusted price spot (Ray) and the outstanding normalized
debt art (Wad). -/
structure VatIlk where
  rate : Nat
  spot : Nat
  art : Nat
deriving DecidableEq

/-- An urn (debt position): owner address, name of its ilk, locked
collateral ink (Wad) and normalized debt art (Wad). -/
structure Urn where
  address : String
  ilkName : String
  ink : Nat
  art : Nat
deriving DecidableEq

/-- One auction bid record: auction id, current high bidder (guy; the zero
address means inactive), bid amount and debt-to-cover tab. -/
structure Bid where
  id : Nat
  guy : String
  bid : Nat
  tab : Nat
deriving DecidableEq

/-- A new-style collateral auction house (Clipper): exposes its address,
its kick counter, and a direct active-auctions query. -/
structure ClipContract where
  address : String
  kicks : Nat
  active_auctions : List Bid

/-- A legacy collateral auction house (Flipper): address, kick counter and
per-id bid lookup. -/
structure FlipContract where
  address : String
  kicks : Nat
  bids : Nat → Bid

/-- A global auction house (Flapper or Flopper): kick counter and per-id
bid lookup. -/
structure GlobalAuctionContract where
  kicks : Nat
  bids : Nat → Bid

/-- A deployment collateral entry: ilk name plus the optional auction
contract of either variant, as in pymaker deployment config. -/
structure Collateral where
  ilkName : String
  clipper : Option ClipContract
  flipper : Option FlipContract

/-- The argument of cage_active_auctions, which dispatches with isinstance
on Clipper, Flipper, or anything else (Flapper / Flopper). -/
inductive AuctionParent where
  | clip (c : ClipContract)
  | flip (f : FlipContract)
  | other (g : GlobalAuctionContract)

/-- Everything check_cage and its helpers read from the chain on one block:
End.live, End.when (as a unix timestamp), End.wait, the block timestamp,
the deployment collaterals, Vat.ilks, Spotter.mat per ilk (Ray), the urn
history provider result per ilk, the two global auction houses, the Vow
address internal Dai balance (Rad) and the optional --psm address. -/
structure ChainState where
  live : Bool
  whenUnix : Nat
  wait : Nat
  now : Nat
  collaterals : List Collateral
  vatIlks : String → VatIlk
  mats : String → Nat
  urnsOf : String → List Urn
  flapper : GlobalAuctionContract
  flopper : GlobalAuctionContract
  vowDai : Nat
  psm : Option String

/-- The keeper process state: the fields of CageKeeper set in __init__
(confirmations = 0, errors = 0; cageFacilitated and max_errors from the
command line) plus a flag recording that lifecycle.terminate() ran. -/
structure KeeperState where
  confirmations : Nat
  cageFacilitated : Bool
  errors : Nat
  maxErrors : Nat
  terminated : Bool
deriving DecidableEq

/-- One mutating contract call submitted by the keeper. -/
inductive Call where
  | yankFlap (id : Nat)
  | yankFlop (id : Nat)
  | cage (ilkName : String)
  | snip (ilkName : String) (id : Nat)
  | skip (ilkName : String) (id : Nat)
  | skim (ilkName : String) (address : String)
  | heal
  | thaw
  | flow (ilkName : String)
  | deny (address : String)
  | burn
deriving DecidableEq

/-- The zero address literal compared against bid.guy. -/
def zeroAddress : String := "0x0000000000000000000000000000000000000000"

/-- Conversion Ray(w) of a Wad value into Ray scale (multiply by 10^9). -/
def rayOfWad (w : Nat) : Nat := w * 10 ^ 9

/-- Ray times Ray: multiply raw values and scale back down by 10^27,
truncating, as pymaker fixed-point multiplication does. -/
def rayMul (a b : Nat) : Nat := a * b / 10 ^ 27

/-- The auction ids visited by range(1, kicks + 1): 1, 2, ..., kicks. -/
def idRange (kicks : Nat) : List Nat := (List.range kicks).map (fun i => i + 1)

/-- CageKeeper.cage_active_auctions (lines 323-348): a Clipper answers with
its own active_auctions query verbatim; a Flipper yields the bids at ids
1..kicks whose guy is non-zero and whose bid is strictly below tab; a
Flapper or Flopper yields the bids at ids 1..kicks whose guy is non-zero. -/
def cage_active_auctions (parentObj : AuctionParent) : List Bid :=
  match parentObj with
  | .clip c => c.active_auctions
  | .flip f =>
      ((idRange f.kicks).map f.bids).filter
        (fun b => decide (b.guy ≠ zeroAddress ∧ b.bid < b.tab))
  | .other g =>
      ((idRange g.kicks).map g.bids).filter
        (fun b => decide (b.guy ≠ zeroAddress))

/-- The result shape of all_active_auctions: per-ilk clip and flip lists
plus the flat flap and flop lists. -/
structure Auctions where
  clips : List (String × List Bid)
  flips : List (String × List Bid)
  flaps : List Bid
  flops : List Bid

/-- CageKeeper.all_active_auctions (lines 305-321): walk every deployment
collateral; one with a clipper contributes a clips entry, otherwise one
with a flipper contributes a flips entry; then classify the two global
houses. -/
def all_active_auctions (cs : ChainState) : Auctions :=
  let pair := cs.collaterals.foldl
    (fun acc c =>
      match c.clipper with
      | some cl => (acc.1 ++ [(c.ilkName, cage_active_auctions (.clip cl))], acc.2)
      | none =>
        match c.flipper with
        | some fl => (acc.1, acc.2 ++ [(c.ilkName, cage_active_auctions (.flip fl))])
        | none => acc)
    ([], [])
  { clips := pair.1
    flips := pair.2
    flaps := cage_active_auctions (.other cs.flapper)
    flops := cage_active_auctions (.other cs.flopper) }

/-- CageKeeper.get_collaterals (lines 263-270): drop the collateral named
SAI, then keep those whose freshly read Vat art is positive. -/
def get_collaterals (cs : ChainState) : List Collateral :=
  (cs.collaterals.filter (fun l => decide (l.ilkName ≠ "SAI"))).filter
    (fun l => decide (0 < (cs.vatIlks l.ilkName).art))

/-- The underwater test of get_underwater_urns (lines 290-297): refresh the
urn's ilk from the Vat, read Spotter.mat, and compare
Ray(art) * rate > Ray(ink) * spot * mat in Ray arithmetic. -/
def isUnderwater (cs : ChainState) (urn : Urn) : Bool :=
  let freshIlk := cs.vatIlks urn.ilkName
  let mat := cs.mats urn.ilkName
  let usdDebt := rayMul (rayOfWad urn.art) freshIlk.rate
  let usdCollateral := rayMul (rayMul (rayOfWad urn.ink) freshIlk.spot) mat
  decide (usdCollateral < usdDebt)

/-- CageKeeper.get_underwater_urns (lines 272-303): for each supplied ilk,
fetch its urns from the history provider and keep the underwater ones, in
traversal order. -/
def get_underwater_urns (cs : ChainState) (ilks : List String) : List Urn :=
  ilks.flatMap (fun ilk => (cs.urnsOf ilk).filter (isUnderwater cs))

/-- CageKeeper.yank_auctions (lines 350-356): Flap.yank on every flap bid,
then Flop.yank on every flop bid. -/
def yank_auctions (flapBids flopBids : List Bid) : List Call :=
  flapBids.map (fun b => Call.yankFlap b.id) ++ flopBids.map (fun b => Call.yankFlop b.id)

/-- CageKeeper.facilitate_processing_period (lines 196-232): yank all flap
and flop auctions, End.cage every ilk from get_collaterals, End.snip every
classified clip bid, End.skip every classified flip bid, then End.skim
every underwater urn. -/
def facilitate_processing_period (cs : ChainState) : List Call :=
  let ilks := (get_collaterals cs).map (fun l => l.ilkName)
  let auctions := all_active_auctions cs
  yank_auctions auctions.flaps auctions.flops
    ++ ilks.map Call.cage
    ++ auctions.clips.flatMap (fun p => p.2.map (fun b => Call.snip p.1 b.id))
    ++ auctions.flips.flatMap (fun p => p.2.map (fun b => Call.skip p.1 b.id))
    ++ (get_underwater_urns cs ilks).map (fun u => Call.skim u.ilkName u.address)

/-- The ESM.deny calls of the thaw loop body (lines 253-256): deny the
clipper address when present, then the flipper address when present. -/
def denyCalls (col : Collateral) : List Call :=
  (match col.clipper with | some cl => [Call.deny cl.address] | none => [])
    ++ (match col.flipper with | some fl => [Call.deny fl.address] | none => [])

/-- CageKeeper.thaw_cage (lines 234-261): Vow.heal when the Vow holds Dai,
End.thaw, then End.flow plus ESM.deny per collateral from get_collaterals,
then the optional PSM flow and deny. -/
def thaw_cage (cs : ChainState) : List Call :=
  let collaterals := get_collaterals cs
  (if 0 < cs.vowDai then [Call.heal] else [])
    ++ [Call.thaw]
    ++ collaterals.flatMap (fun col => Call.flow col.ilkName :: denyCalls col)
    ++ (match cs.psm with
        | some addr => [Call.flow "PSM-USDC-A", Call.deny addr]
        | none => [])

/-- CageKeeper.check_cage (lines 157-194): when live is false and exactly
twelve confirmations have accrued, either facilitate (setting the latch),
thaw and burn once the wait has elapsed, or wait; otherwise, while live is
false and confirmations is below 13, increment the counter. -/
def check_cage (st : KeeperState) (cs : ChainState) : KeeperState × List Call :=
  if cs.live = false ∧ st.confirmations = 12 then
    if st.cageFacilitated = false then
      ({ st with cageFacilitated := true }, facilitate_processing_period cs)
    else if cs.whenUnix + cs.wait ≤ cs.now then
      (st, thaw_cage cs ++ [Call.burn])
    else
      (st, [])
  else if cs.live = false ∧ st.confirmations < 13 then
    ({ st with confirmations := st.confirmations + 1 }, [])
  else
    (st, [])

/-- CageKeeper.check_cage when facilitate_processing_period aborts with an
error after k submitted transactions: the cageFacilitated assignment (line
175) precedes the facilitate_processing_period() invocation (line 176), so
the latch is already set and only a prefix of the work list went out.  Any
other branch behaves as check_cage. -/
def check_cage_aborted (st : KeeperState) (cs : ChainState) (k : Nat) :
    KeeperState × List Call :=
  if cs.live = false ∧ st.confirmations = 12 ∧ st.cageFacilitated = false then
    ({ st with cageFacilitated := true }, (facilitate_processing_period cs).take k)
  else
    check_cage st cs

/-- CageKeeper.process_block (lines 150-155): when the error counter has
reached max_errors, terminate the lifecycle instead of doing any work;
otherwise run check_cage. -/
def process_block (st : KeeperState) (cs : ChainState) : KeeperState × List Call :=
  if st.maxErrors ≤ st.errors then
    ({ st with terminated := true }, [])
  else
    check_cage st cs

/-- The keeper state after __init__ (lines 108-113): zero errors, zero
confirmations, the latch seeded from --previous-cage and the ceiling from
--max-errors. -/
def initState (cageFacilitated : Bool) (maxErrors : Nat) : KeeperState :=
  { confirmations := 0
    cageFacilitated := cageFacilitated
    errors := 0
    maxErrors := maxErrors
    terminated := false }

/-- Run check_cage over a sequence of observed blocks, collecting the final
state and the per-block submitted call lists. -/
def run (st : KeeperState) (css : List ChainState) : KeeperState × List (List Call) :=
  match css with
  | [] => (st, [])
  | cs :: rest =>
    let step := check_cage st cs
    let tail := run step.1 rest
    (tail.1, step.2 :: tail.2)

/-- Run process_block over a sequence of observed blocks. -/
def runBlocks (st : KeeperState) (css : List ChainState) :
    KeeperState × List (List Call) :=
  match css with
  | [] => (st, [])
  | cs :: rest =>
    let step := process_block st cs
    let tail := runBlocks step.1 rest
    (tail.1, step.2 :: tail.2)

/-- Calls emitted only by the facilitation phase. -/
def isFacilitationCall : Call → Bool
  | .yankFlap _ => true
  | .yankFlop _ => true
  | .cage _ => true
  | .snip _ _ => true
  | .skip _ _ => true
  | .skim _ _ => true
  | _ => false

/-- Calls emitted only by the thaw phase (burn included). -/
def isThawPhaseCall : Call → Bool
  | .heal => true
  | .thaw => true
  | .flow _ => true
  | .deny _ => true
  | .burn => true
  | _ => false

/-- End.cage calls. -/
def isCage : Call → Bool
  | .cage _ => true
  | _ => false

/-- Flap.yank and Flop.yank calls. -/
def isYank : Call → Bool
  | .yankFlap _ => true
  | .yankFlop _ => true
  | _ => false

/-- End.snip and End.skip calls. -/
def isSnipSkip : Call → Bool
  | .snip _ _ => true
  | .skip _ _ => true
  | _ => false

/-- Vow.heal calls. -/
def isHeal : Call → Bool
  | .heal => true
  | _ => false

/-- The End.thaw call. -/
def isThaw : Call → Bool
  | .thaw => true
  | _ => false

/-- End.flow and ESM.deny calls. -/
def isFlowDeny : Call → Bool
  | .flow _ => true
  | .deny _ => true
  | _ => false

/-- No element of the list satisfies the classifier. -/
def noCall (L : List Call) (p : Call → Bool) : Prop := ∀ c ∈ L, p c = false

/-- Every p-classified call occurs strictly before every q-classified call
in the submission order L. -/
def precedesAll (L : List Call) (p q : Call → Bool) : Prop :=
  ∀ i j : Fin L.length, p (L.get i) = true → q (L.get j) = true → (i : Nat) < (j : Nat)

/-! Helper lemmas -/

theorem noCall_of_all {L : List Call} {p q : Call → Bool}
    (hall : ∀ c ∈ L, p c = true) (hpq : ∀ c, p c = true → q c = false) :
    noCall L q :=
  fun c hc => hpq c (hall c hc)

theorem precedesAll_append {L1 L2 : List Call} {p q : Call → Bool}
    (h2 : noCall L2 p) (h1 : noCall L1 q) : precedesAll (L1 ++ L2) p q := by
  intro i j hp hq
  rw [List.get_eq_getElem] at hp hq
  by_cases hi : (i : Nat) < L1.length
  · by_cases hj : (j : Nat) < L1.length
    · rw [List.getElem_append_left hj] at hq
      have hfalse := h1 _ (List.getElem_mem hj)
      rw [hfalse] at hq
      exact absurd hq (by simp)
    · omega
  · have hi2 : L1.length ≤ (i : Nat) := Nat.le_of_not_lt hi
    rw [List.getElem_append_right hi2] at hp
    have hlt : (i : Nat) - L1.length < L2.length := by
      have hsum : (i : Nat) < L1.length + L2.length := by
        have hfin := i.isLt
        simpa [List.length_append] using hfin
      omega
    have hfalse := h2 _ (List.getElem_mem hlt)
    rw [hfalse] at hp
    exact absurd hp (by simp)

theorem facil_not_thaw (c : Call) (h : isFacilitationCall c = true) :
    isThawPhaseCall c = false := by
  cases c <;> simp_all [isFacilitationCall, isThawPhaseCall]

theorem facilitate_calls (cs : ChainState) :
    ∀ c ∈ facilitate_processing_period cs, isFacilitationCall c = true := by
  intro c hc
  simp only [facilitate_processing_period, yank_auctions, List.mem_append,
    List.mem_map, List.mem_flatMap] at hc
  rcases hc with ((((⟨b, _, rfl⟩ | ⟨b, _, rfl⟩) | ⟨n, _, rfl⟩) |
    ⟨p, _, b, _, rfl⟩) | ⟨p, _, b, _, rfl⟩) | ⟨u, _, rfl⟩ <;> rfl

theorem denyCalls_deny (col : Collateral) :
    ∀ c ∈ denyCalls col, isFlowDeny c = true := by
  intro c hc
  unfold denyCalls at hc
  revert hc
  cases col.clipper <;> cases col.flipper <;> intro hc <;>
    simp only [List.mem_append, List.mem_singleton, List.not_mem_nil, or_false,
      false_or] at hc
  all_goals first
    | (subst hc; rfl)
    | (rcases hc with rfl | rfl <;> rfl)

theorem flowDeny_thawPhase (c : Call) (h : isFlowDeny c = true) :
    isThawPhaseCall c = true := by
  cases c <;> simp_all [isFlowDeny, isThawPhaseCall]

theorem thaw_cage_calls (cs : ChainState) :
    ∀ c ∈ thaw_cage cs, isThawPhaseCall c = true := by
  intro c hc
  simp only [thaw_cage] at hc
  rcases List.mem_append.mp hc with hc | hc
  · rcases List.mem_append.mp hc with hc | hc
    · rcases List.mem_append.mp hc with hc | hc
      · split at hc
        · rw [List.mem_singleton] at hc
          subst hc; rfl
        · exact absurd hc (List.not_mem_nil c)
      · rw [List.mem_singleton] at hc
        subst hc; rfl
    · rcases List.mem_flatMap.mp hc with ⟨col, _, hc⟩
      rcases List.mem_cons.mp hc with rfl | hc
      · rfl
      · exact flowDeny_thawPhase c (denyCalls_deny col c hc)
  · revert hc
    cases cs.psm <;> intro hc
    · exact absurd hc (List.not_mem_nil c)
    · rcases List.mem_cons.mp hc with rfl | hc
      · rfl
      · rw [List.mem_singleton] at hc
        subst hc; rfl

theorem thaw_not_facil (c : Call) (h : isThawPhaseCall c = true) :
    isFacilitationCall c = false := by
  cases c <;> simp_all [isFacilitationCall, isThawPhaseCall]

theorem check_cage_latch_mono (st : KeeperState) (cs : ChainState)
    (h : st.cageFacilitated = true) :
    (check_cage st cs).1.cageFacilitated = true := by
  unfold check_cage
  split_ifs <;> simp_all

theorem check_cage_latched_no_facil (st : KeeperState) (cs : ChainState)
    (h : st.cageFacilitated = true) :
    ∀ c ∈ (check_cage st cs).2, isFacilitationCall c = false := by
  intro c hc
  unfold check_cage at hc
  split_ifs at hc with h1 h2 h3
  · simp_all
  · rcases List.mem_append.mp hc with hc | hc
    · exact thaw_not_facil c (thaw_cage_calls cs c hc)
    · rw [List.mem_singleton] at hc
      subst hc; rfl
  · exact absurd hc (List.not_mem_nil c)
  · exact absurd hc (List.not_mem_nil c)
  · exact absurd hc (List.not_mem_nil c)

theorem run_latched_no_facil (css : List ChainState) (st : KeeperState)
    (h : st.cageFacilitated = true) :
    ∀ out ∈ (run st css).2, ∀ c ∈ out, isFacilitationCall c = false := by
  induction css generalizing st with
  | nil => intro out hout; exact absurd hout (List.not_mem_nil out)
  | cons cs rest ih =>
    intro out hout
    rcases List.mem_cons.mp hout with rfl | hout
    · exact check_cage_latched_no_facil st cs h
    · exact ih (check_cage st cs).1 (check_cage_latch_mono st cs h) out hout

theorem check_cage_confirmations_step (st : KeeperState) (cs : ChainState)
    (h : st.confirmations ≤ 12) :
    (check_cage st cs).1.confirmations =
      if cs.live = false ∧ st.confirmations < 12
      then st.confirmations + 1 else st.confirmations := by
  unfold check_cage
  split_ifs <;> simp_all <;> omega

theorem run_confirmations_le (css : List ChainState) (st : KeeperState)
    (h : st.confirmations ≤ 12) :
    (run st css).1.confirmations ≤ 12 := by
  induction css generalizing st with
  | nil => exact h
  | cons cs rest ih =>
    refine ih (check_cage st cs).1 ?next
    rw [check_cage_confirmations_step st cs h]
    split_ifs with hcond
    · omega
    · exact h

/-! Concrete fixtures used by witnesses and counterexamples -/

/-- A global auction house with no kicked auctions. -/
def emptyGlobal : GlobalAuctionContract :=
  { kicks := 0, bids := fun i => { id := i, guy := zeroAddress, bid := 0, tab := 0 } }

/-- A minimal caged chain observation: live reads false, the cage timestamp
and wait are both zero so the thaw time has passed, and the deployment is
empty. -/
def baseChain : ChainState :=
  { live := false
    whenUnix := 0
    wait := 0
    now := 0
    collaterals := []
    vatIlks := fun _ => { rate := 10 ^ 27, spot := 10 ^ 27, art := 0 }
    mats := fun _ => 10 ^ 27
    urnsOf := fun _ => []
    flapper := emptyGlobal
    flopper := emptyGlobal
    vowDai := 0
    psm := none }

/-- A keeper that has counted all twelve confirmations but has not yet
facilitated. -/
def unfacilitatedState : KeeperState :=
  { confirmations := 12
    cageFacilitated := false
    errors := 0
    maxErrors := 100
    terminated := false }

/-- A keeper that has counted all twelve confirmations and already
facilitated. -/
def facilitatedState : KeeperState :=
  { unfacilitatedState with cageFacilitated := true }

/-! Claim theorems -/

/-- C1: on a block where live reads false, the counter equals 12 and the
latch is still clear, check_cage submits exactly the facilitation work
list and sets the latch; every later block in the run emits no
facilitation call, and the latch, once true, never resets, so it
transitions false to true at most once per run. -/
theorem C1_facilitation_exactly_once (st : KeeperState) (cs : ChainState)
    (css : List ChainState)
    (hconf : st.confirmations = 12) (hflag : st.cageFacilitated = false)
    (hlive : cs.live = false) :
    (check_cage st cs).2 = facilitate_processing_period cs ∧
    (check_cage st cs).1.cageFacilitated = true ∧
    (∀ out ∈ (run (check_cage st cs).1 css).2, ∀ c ∈ out,
        isFacilitationCall c = false) ∧
    (∀ st2 cs2, st2.cageFacilitated = true →
        (check_cage st2 cs2).1.cageFacilitated = true) := by
  have hstep : check_cage st cs =
      ({ st with cageFacilitated := true }, facilitate_processing_period cs) := by
    unfold check_cage
    split_ifs <;> simp_all
  refine ⟨by rw [hstep], by rw [hstep], ?later, fun st2 cs2 h => check_cage_latch_mono st2 cs2 h⟩
  rw [hstep]
  exact run_latched_no_facil css _ rfl

theorem C1_facilitation_exactly_once_witness :
    unfacilitatedState.confirmations = 12 ∧
    unfacilitatedState.cageFacilitated = false ∧
    baseChain.live = false ∧
    (check_cage unfacilitatedState baseChain).2 =
      facilitate_processing_period baseChain ∧
    (check_cage unfacilitatedState baseChain).1.cageFacilitated = true :=
  ⟨rfl, rfl, rfl,
    (C1_facilitation_exactly_once unfacilitatedState baseChain [] rfl rfl rfl).1,
    (C1_facilitation_exactly_once unfacilitatedState baseChain [] rfl rfl rfl).2.1⟩

/-- C2: the confirmations counter starts at 0; a block increments it by
exactly 1 precisely when live reads false and it is below 12, and leaves
it unchanged otherwise (in particular once it reaches 12 it is frozen);
hence every state reachable from boot keeps it in 0..12. -/
theorem C2_confirmations_invariant :
    (∀ (cageFacilitated : Bool) (maxErrors : Nat),
        (initState cageFacilitated maxErrors).confirmations = 0) ∧
    (∀ (st : KeeperState) (cs : ChainState), st.confirmations ≤ 12 →
        (check_cage st cs).1.confirmations =
          if cs.live = false ∧ st.confirmations < 12
          then st.confirmations + 1 else st.confirmations) ∧
    (∀ (cageFacilitated : Bool) (maxErrors : Nat) (css : List ChainState),
        (run (initState cageFacilitated maxErrors) css).1.confirmations ≤ 12) := by
  refine ⟨fun _ _ => rfl, fun st cs h => check_cage_confirmations_step st cs h, ?bound⟩
  intro cf me css
  exact run_confirmations_le css _ (by simp [initState])

theorem C2_confirmations_invariant_witness :
    unfacilitatedState.confirmations ≤ 12 ∧
    (check_cage unfacilitatedState baseChain).1.confirmations =
      (if baseChain.live = false ∧ unfacilitatedState.confirmations < 12
       then unfacilitatedState.confirmations + 1
       else unfacilitatedState.confirmations) :=
  ⟨by decide,
    C2_confirmations_invariant.2.1 unfacilitatedState baseChain (by decide)⟩

/-- C3 counterexample: with the latch set, twelve confirmations counted and
the wait elapsed, two consecutive blocks both receive the End.thaw and
ESM burn submissions: the thaw sequence is not submitted only once, so the
THAWED state is not terminal in the keeper. -/
theorem C3_thawed_terminal_counterexample :
    Call.thaw ∈ ((run facilitatedState [baseChain, baseChain]).2.getD 0 []) ∧
    Call.burn ∈ ((run facilitatedState [baseChain, baseChain]).2.getD 0 []) ∧
    Call.thaw ∈ ((run facilitatedState [baseChain, baseChain]).2.getD 1 []) ∧
    Call.burn ∈ ((run facilitatedState [baseChain, baseChain]).2.getD 1 []) := by
  decide

/-- C3 amended: the keeper holds no thawed latch, so on every block of a
run in which live reads false, the counter sits at 12, the latch is set
and the wait has elapsed, the whole thaw sequence followed by the deposit
burn is submitted again. -/
theorem C3_thaw_resubmitted_every_block (st : KeeperState)
    (css : List ChainState)
    (hconf : st.confirmations = 12) (hflag : st.cageFacilitated = true)
    (hall : ∀ x ∈ css, x.live = false ∧ x.whenUnix + x.wait ≤ x.now) :
    (run st css).2 = css.map (fun x => thaw_cage x ++ [Call.burn]) := by
  revert hall
  induction css with
  | nil => intro hall; rfl
  | cons cs rest ih =>
    intro hall
    have hcs := hall cs (List.mem_cons_self cs rest)
    have hstep : check_cage st cs = (st, thaw_cage cs ++ [Call.burn]) := by
      unfold check_cage
      split_ifs <;> simp_all
    have htail := ih (fun x hx => hall x (List.mem_cons_of_mem cs hx))
    show (check_cage st cs).2 :: (run (check_cage st cs).1 rest).2 = _
    rw [hstep, List.map_cons, htail]

theorem C3_thaw_resubmitted_witness :
    facilitatedState.confirmations = 12 ∧
    facilitatedState.cageFacilitated = true ∧
    baseChain.live = false ∧
    baseChain.whenUnix + baseChain.wait ≤ baseChain.now ∧
    (run facilitatedState [baseChain]).2 =
      [baseChain].map (fun x => thaw_cage x ++ [Call.burn]) :=
  ⟨rfl, rfl, rfl, by decide,
    C3_thaw_resubmitted_every_block facilitatedState [baseChain] rfl rfl
      (by intro x hx; rw [List.mem_singleton] at hx; subst hx; exact ⟨rfl, by decide⟩)⟩

/-- C10: the latch is assigned before the first facilitation transaction
goes out, so a facilitation run aborted after any k submitted calls still
leaves the latch set, only a prefix of the work list was submitted, and no
later block of the run emits any facilitation call again. -/
theorem C10_latch_set_before_submission (st : KeeperState) (cs : ChainState)
    (k : Nat) (css : List ChainState)
    (hlive : cs.live = false) (hconf : st.confirmations = 12)
    (hflag : st.cageFacilitated = false) :
    (check_cage_aborted st cs k).1.cageFacilitated = true ∧
    (check_cage_aborted st cs k).2 = (facilitate_processing_period cs).take k ∧
    (∀ out ∈ (run (check_cage_aborted st cs k).1 css).2, ∀ c ∈ out,
        isFacilitationCall c = false) := by
  have hstep : check_cage_aborted st cs k =
      ({ st with cageFacilitated := true },
        (facilitate_processing_period cs).take k) := by
    unfold check_cage_aborted
    split_ifs <;> simp_all
  refine ⟨by rw [hstep], by rw [hstep], ?later⟩
  rw [hstep]
  exact run_latched_no_facil css _ rfl

theorem C10_latch_set_before_submission_witness :
    baseChain.live = false ∧
    unfacilitatedState.confirmations = 12 ∧
    unfacilitatedState.cageFacilitated = false ∧
    (check_cage_aborted unfacilitatedState baseChain 0).1.cageFacilitated = true ∧
    (check_cage_aborted unfacilitatedState baseChain 0).2 =
      (facilitate_processing_period baseChain).take 0 :=
  ⟨rfl, rfl, rfl,
    (C10_latch_set_before_submission unfacilitatedState baseChain 0 [] rfl rfl rfl).1,
    (C10_latch_set_before_submission unfacilitatedState baseChain 0 [] rfl rfl rfl).2.1⟩

theorem check_cage_preserves_budget (st : KeeperState) (cs : ChainState) :
    (check_cage st cs).1.errors = st.errors ∧
    (check_cage st cs).1.maxErrors = st.maxErrors ∧
    (check_cage st cs).1.terminated = st.terminated := by
  unfold check_cage
  split_ifs <;> simp

theorem process_block_preserves_budget (st : KeeperState) (cs : ChainState) :
    (process_block st cs).1.errors = st.errors ∧
    (process_block st cs).1.maxErrors = st.maxErrors := by
  unfold process_block
  split_ifs with h
  · exact ⟨rfl, rfl⟩
  · exact ⟨(check_cage_preserves_budget st cs).1,
      (check_cage_preserves_budget st cs).2.1⟩

theorem runBlocks_errors_constant (css : List ChainState) (st : KeeperState) :
    (runBlocks st css).1.errors = st.errors := by
  induction css generalizing st with
  | nil => rfl
  | cons cs rest ih =>
    show (runBlocks (process_block st cs).1 rest).1.errors = st.errors
    rw [ih (process_block st cs).1, (process_block_preserves_budget st cs).1]

theorem runBlocks_never_terminates (css : List ChainState) (st : KeeperState)
    (h : st.errors < st.maxErrors) :
    (runBlocks st css).1.terminated = st.terminated := by
  induction css generalizing st with
  | nil => rfl
  | cons cs rest ih =>
    have hp := process_block_preserves_budget st cs
    have hterm : (process_block st cs).1.terminated = st.terminated := by
      unfold process_block
      split_ifs with hc
      · omega
      · exact (check_cage_preserves_budget st cs).2.2
    show (runBlocks (process_block st cs).1 rest).1.terminated = st.terminated
    rw [ih (process_block st cs).1 (by rw [hp.1, hp.2]; exact h), hterm]

/-- C4: nothing in the keeper ever increments the error counter: it is
constant across any single block callback and across any whole run, and
consequently a keeper booted with a positive max-errors ceiling never
reaches the orderly-termination path, contradicting the claimed
per-failure increment of the budget. -/
theorem C4_error_counter_never_incremented :
    (∀ (st : KeeperState) (cs : ChainState),
        (process_block st cs).1.errors = st.errors) ∧
    (∀ (st : KeeperState) (css : List ChainState),
        (runBlocks st css).1.errors = st.errors) ∧
    (∀ (cageFacilitated : Bool) (maxErrors : Nat) (css : List ChainState),
        0 < maxErrors →
        (runBlocks (initState cageFacilitated maxErrors) css).1.terminated = false) := by
  refine ⟨fun st cs => (process_block_preserves_budget st cs).1,
    fun st css => runBlocks_errors_constant css st, ?never⟩
  intro cf me css hme
  exact runBlocks_never_terminates css _ (by simpa [initState] using hme)

theorem C4_error_counter_never_incremented_witness :
    (0 : Nat) < 100 ∧
    (runBlocks (initState false 100) [baseChain]).1.terminated = false :=
  ⟨by decide,
    C4_error_counter_never_incremented.2.2 false 100 [baseChain] (by decide)⟩

/-- An urn matching the adjusted fixture of the spec: 0.02 collateral
locked against 5 Dai of normalized debt. -/
def uwUrn : Urn :=
  { address := "0xUnderwaterOwner", ilkName := "ETH-A", ink := 2 * 10 ^ 16,
    art := 5 * 10 ^ 18 }

/-- A chain observation whose only collateral type carries the underwater
fixture urn: rate 1, spot 100, liquidation ratio 1.5 (all in Ray). -/
def uwChain : ChainState :=
  { baseChain with
      collaterals := [{ ilkName := "ETH-A", clipper := none, flipper := none }]
      vatIlks := fun _ => { rate := 10 ^ 27, spot := 100 * 10 ^ 27, art := 6 * 10 ^ 18 }
      mats := fun _ => 15 * 10 ^ 26
      urnsOf := fun n => if n = "ETH-A" then [uwUrn] else [] }

/-- C5: the scanner flags an urn exactly when art times rate strictly
exceeds ink times spot times the liquidation ratio, computed in truncating
Ray fixed-point arithmetic; an urn whose debt value equals its
risk-adjusted collateral value is not flagged. -/
theorem C5_underwater_classification (cs : ChainState) (ilks : List String)
    (u : Urn) :
    (u ∈ get_underwater_urns cs ilks ↔
      ∃ ilk ∈ ilks, u ∈ cs.urnsOf ilk ∧
        rayMul (rayMul (rayOfWad u.ink) (cs.vatIlks u.ilkName).spot)
            (cs.mats u.ilkName)
          < rayMul (rayOfWad u.art) (cs.vatIlks u.ilkName).rate) ∧
    (rayMul (rayOfWad u.art) (cs.vatIlks u.ilkName).rate =
        rayMul (rayMul (rayOfWad u.ink) (cs.vatIlks u.ilkName).spot)
          (cs.mats u.ilkName) →
      isUnderwater cs u = false) := by
  constructor
  · simp [get_underwater_urns, List.mem_flatMap, List.mem_filter, isUnderwater]
  · intro heq
    simp only [isUnderwater, decide_eq_false_iff_not, not_lt, heq]
    exact Nat.le_refl _

theorem C5_underwater_classification_witness :
    uwUrn ∈ get_underwater_urns uwChain ["ETH-A"] :=
  (C5_underwater_classification uwChain ["ETH-A"] uwUrn).1.mpr
    ⟨"ETH-A", by decide, by decide, by decide⟩

theorem mem_idRange (i k : Nat) : i ∈ idRange k ↔ 1 ≤ i ∧ i ≤ k := by
  simp only [idRange, List.mem_map, List.mem_range]
  constructor
  · rintro ⟨j, hj, rfl⟩
    omega
  · rintro ⟨h1, h2⟩
    exact ⟨i - 1, by omega, by omega⟩

/-- C6: a legacy flip house contributes exactly the bids at ids 1..kicks
with a non-zero bidder and bid strictly below tab; a flap or flop house
contributes exactly the bids at ids 1..kicks with a non-zero bidder; a
clip house contributes its own active-auctions query verbatim. -/
theorem C6_auction_classification :
    (∀ (f : FlipContract) (b : Bid),
        b ∈ cage_active_auctions (.flip f) ↔
          ∃ i, 1 ≤ i ∧ i ≤ f.kicks ∧ b = f.bids i ∧
            b.guy ≠ zeroAddress ∧ b.bid < b.tab) ∧
    (∀ (g : GlobalAuctionContract) (b : Bid),
        b ∈ cage_active_auctions (.other g) ↔
          ∃ i, 1 ≤ i ∧ i ≤ g.kicks ∧ b = g.bids i ∧ b.guy ≠ zeroAddress) ∧
    (∀ (c : ClipContract), cage_active_auctions (.clip c) = c.active_auctions) := by
  refine ⟨?flip, ?glob, fun c => rfl⟩
  · intro f b
    simp only [cage_active_auctions, List.mem_filter, List.mem_map,
      decide_eq_true_eq]
    constructor
    · rintro ⟨⟨i, hi, rfl⟩, hcond⟩
      rw [mem_idRange] at hi
      exact ⟨i, hi.1, hi.2, rfl, hcond.1, hcond.2⟩
    · rintro ⟨i, h1, h2, rfl, hg, hb⟩
      exact ⟨⟨i, (mem_idRange i f.kicks).mpr ⟨h1, h2⟩, rfl⟩, hg, hb⟩
  · intro g b
    simp only [cage_active_auctions, List.mem_filter, List.mem_map,
      decide_eq_true_eq]
    constructor
    · rintro ⟨⟨i, hi, rfl⟩, hcond⟩
      rw [mem_idRange] at hi
      exact ⟨i, hi.1, hi.2, rfl, hcond⟩
    · rintro ⟨i, h1, h2, rfl, hg⟩
      exact ⟨⟨i, (mem_idRange i g.kicks).mpr ⟨h1, h2⟩, rfl⟩, hg⟩

/-- The three example bids of the spec: eligible, tab already covered, and
never kicked. -/
def flipBid1 : Bid := { id := 1, guy := "0x1", bid := 80, tab := 100 }

def flipBid2 : Bid := { id := 2, guy := "0x1", bid := 100, tab := 100 }

def flipBid3 : Bid := { id := 3, guy := zeroAddress, bid := 80, tab := 100 }

def flipFixture : FlipContract :=
  { address := "0xFlip", kicks := 3,
    bids := fun i => if i = 1 then flipBid1 else if i = 2 then flipBid2 else flipBid3 }

theorem C6_auction_classification_witness :
    flipBid1 ∈ cage_active_auctions (.flip flipFixture) ∧
    flipBid2 ∉ cage_active_auctions (.flip flipFixture) ∧
    flipBid3 ∉ cage_active_auctions (.flip flipFixture) :=
  ⟨(C6_auction_classification.1 flipFixture flipBid1).mpr
      ⟨1, by decide, by decide, by decide, by decide, by decide⟩,
    by decide, by decide⟩

theorem thaw_cage_decomp (cs : ChainState) :
    thaw_cage cs =
      (if 0 < cs.vowDai then [Call.heal] else [])
        ++ ([Call.thaw]
        ++ ((get_collaterals cs).flatMap (fun col => Call.flow col.ilkName :: denyCalls col)
        ++ (match cs.psm with
            | some addr => [Call.flow "PSM-USDC-A", Call.deny addr]
            | none => []))) := by
  simp only [thaw_cage, List.append_assoc]

/-- C7: a heal, thaw, flow, deny or burn call is only ever submitted on a
block whose timestamp has reached the cage timestamp plus the processing
wait; and on such a block the submission order is the optional heal
(present exactly when the settlement account holds Dai), then the global
thaw, then a block of per-collateral flow and deny calls containing one
flow per processed collateral, then the optional peg-module pair, with the
deposit burn last. -/
theorem C7_thaw_gating_and_order (st : KeeperState) (cs : ChainState) :
    (∀ c ∈ (check_cage st cs).2, isThawPhaseCall c = true →
        cs.whenUnix + cs.wait ≤ cs.now) ∧
    (st.confirmations = 12 → st.cageFacilitated = true → cs.live = false →
      cs.whenUnix + cs.wait ≤ cs.now →
      ∃ B, (check_cage st cs).2 =
          (if 0 < cs.vowDai then [Call.heal] else []) ++ [Call.thaw] ++ B ++
            (match cs.psm with
             | some addr => [Call.flow "PSM-USDC-A", Call.deny addr]
             | none => []) ++ [Call.burn] ∧
        (∀ c ∈ B, isFlowDeny c = true) ∧
        (∀ col ∈ get_collaterals cs, Call.flow col.ilkName ∈ B)) := by
  constructor
  · intro c hc hthaw
    unfold check_cage at hc
    split_ifs at hc with h1 h2 h3 h4
    · have hfac := facil_not_thaw c (facilitate_calls cs c hc)
      rw [hfac] at hthaw
      exact absurd hthaw (by simp)
    · exact h3
    · exact absurd hc (List.not_mem_nil c)
    · exact absurd hc (List.not_mem_nil c)
    · exact absurd hc (List.not_mem_nil c)
  · intro hconf hflag hlive htime
    have hstep : (check_cage st cs).2 = thaw_cage cs ++ [Call.burn] := by
      unfold check_cage
      split_ifs <;> simp_all
    refine ⟨(get_collaterals cs).flatMap (fun col => Call.flow col.ilkName :: denyCalls col),
      ?eq, ?flowdeny, ?each⟩
    · rw [hstep]
      simp only [thaw_cage, List.append_assoc]
    · intro c hcB
      rcases List.mem_flatMap.mp hcB with ⟨col, _, hc⟩
      rcases List.mem_cons.mp hc with rfl | hc
      · rfl
      · exact denyCalls_deny col c hc
    · intro col hcol
      exact List.mem_flatMap.mpr ⟨col, hcol, List.mem_cons_self _ _⟩

/-- A collateral entry with a legacy flip auction house, used by the thaw
witnesses. -/
def ethCollateral : Collateral :=
  { ilkName := "ETH-A", clipper := none, flipper := some flipFixture }

/-- A caged chain observation past its thaw time, with one indebted
collateral, Dai left in the Vow and a configured peg module. -/
def thawChain : ChainState :=
  { baseChain with
      collaterals := [ethCollateral]
      vatIlks := fun _ => { rate := 10 ^ 27, spot := 10 ^ 27, art := 10 ^ 18 }
      vowDai := 5
      psm := some "0xPSM" }

theorem C7_thaw_gating_and_order_witness :
    facilitatedState.confirmations = 12 ∧
    facilitatedState.cageFacilitated = true ∧
    thawChain.live = false ∧
    thawChain.whenUnix + thawChain.wait ≤ thawChain.now ∧
    (∃ B, (check_cage facilitatedState thawChain).2 =
        (if 0 < thawChain.vowDai then [Call.heal] else []) ++ [Call.thaw] ++ B ++
          (match thawChain.psm with
           | some addr => [Call.flow "PSM-USDC-A", Call.deny addr]
           | none => []) ++ [Call.burn] ∧
      (∀ c ∈ B, isFlowDeny c = true) ∧
      (∀ col ∈ get_collaterals thawChain, Call.flow col.ilkName ∈ B)) :=
  ⟨rfl, rfl, rfl, by decide,
    (C7_thaw_gating_and_order facilitatedState thawChain).2 rfl rfl rfl (by decide)⟩

/-- End.skim calls. -/
def isSkim : Call → Bool
  | .skim _ _ => true
  | _ => false

theorem noCall_append {L1 L2 : List Call} {p : Call → Bool}
    (h1 : noCall L1 p) (h2 : noCall L2 p) : noCall (L1 ++ L2) p := by
  intro c hc
  rcases List.mem_append.mp hc with hc | hc
  · exact h1 c hc
  · exact h2 c hc

theorem yank_auctions_calls (a b : List Bid) :
    ∀ c ∈ yank_auctions a b, isYank c = true := by
  intro c hc
  rcases List.mem_append.mp hc with hc | hc <;>
    rcases List.mem_map.mp hc with ⟨x, _, rfl⟩ <;> rfl

theorem cage_segment_calls (l : List String) :
    ∀ c ∈ l.map Call.cage, isCage c = true := by
  intro c hc
  rcases List.mem_map.mp hc with ⟨n, _, rfl⟩
  rfl

theorem snip_segment_calls (cl : List (String × List Bid)) :
    ∀ c ∈ cl.flatMap (fun p => p.2.map (fun b => Call.snip p.1 b.id)),
      isSnipSkip c = true := by
  intro c hc
  rcases List.mem_flatMap.mp hc with ⟨p, _, hc⟩
  rcases List.mem_map.mp hc with ⟨b, _, rfl⟩
  rfl

theorem skip_segment_calls (cl : List (String × List Bid)) :
    ∀ c ∈ cl.flatMap (fun p => p.2.map (fun b => Call.skip p.1 b.id)),
      isSnipSkip c = true := by
  intro c hc
  rcases List.mem_flatMap.mp hc with ⟨p, _, hc⟩
  rcases List.mem_map.mp hc with ⟨b, _, rfl⟩
  rfl

theorem skim_segment_calls (us : List Urn) :
    ∀ c ∈ us.map (fun u => Call.skim u.ilkName u.address), isSkim c = true := by
  intro c hc
  rcases List.mem_map.mp hc with ⟨u, _, rfl⟩
  rfl

theorem cage_only (c : Call) (h : isCage c = true) :
    isYank c = false ∧ isSnipSkip c = false ∧ isSkim c = false := by
  cases c <;> simp_all [isCage, isYank, isSnipSkip, isSkim]

theorem yank_only (c : Call) (h : isYank c = true) :
    isCage c = false ∧ isSnipSkip c = false := by
  cases c <;> simp_all [isCage, isYank, isSnipSkip]

theorem snipskip_only (c : Call) (h : isSnipSkip c = true) :
    isYank c = false ∧ isCage c = false := by
  cases c <;> simp_all [isCage, isYank, isSnipSkip]

theorem skim_only (c : Call) (h : isSkim c = true) :
    isYank c = false ∧ isCage c = false ∧ isSnipSkip c = false := by
  cases c <;> simp_all [isCage, isYank, isSnipSkip, isSkim]

theorem facilitate_decomp (cs : ChainState) :
    facilitate_processing_period cs =
      yank_auctions (all_active_auctions cs).flaps (all_active_auctions cs).flops
        ++ (((get_collaterals cs).map (fun l => l.ilkName)).map Call.cage
        ++ ((all_active_auctions cs).clips.flatMap
              (fun p => p.2.map (fun b => Call.snip p.1 b.id))
        ++ ((all_active_auctions cs).flips.flatMap
              (fun p => p.2.map (fun b => Call.skip p.1 b.id))
        ++ (get_underwater_urns cs ((get_collaterals cs).map (fun l => l.ilkName))).map
              (fun u => Call.skim u.ilkName u.address)))) := by
  simp only [facilitate_processing_period, List.append_assoc]

theorem facilitate_decomp_mid (cs : ChainState) :
    facilitate_processing_period cs =
      (yank_auctions (all_active_auctions cs).flaps (all_active_auctions cs).flops
        ++ ((get_collaterals cs).map (fun l => l.ilkName)).map Call.cage)
        ++ ((all_active_auctions cs).clips.flatMap
              (fun p => p.2.map (fun b => Call.snip p.1 b.id))
        ++ ((all_active_auctions cs).flips.flatMap
              (fun p => p.2.map (fun b => Call.skip p.1 b.id))
        ++ (get_underwater_urns cs ((get_collaterals cs).map (fun l => l.ilkName))).map
              (fun u => Call.skim u.ilkName u.address))) := by
  simp only [facilitate_processing_period, List.append_assoc]

/-- C8 (amended): on the facilitating block, End.cage is submitted for
every collateral type other than SAI whose freshly read normalized debt is
positive, exactly once each when deployment collateral names are distinct,
after all surplus- and debt-auction yanks and before every snip and skip
call. -/
theorem C8_cage_each_indebted_ilk (st : KeeperState) (cs : ChainState)
    (hconf : st.confirmations = 12) (hflag : st.cageFacilitated = false)
    (hlive : cs.live = false) :
    (∀ col ∈ cs.collaterals, col.ilkName ≠ "SAI" →
        0 < (cs.vatIlks col.ilkName).art →
        Call.cage col.ilkName ∈ (check_cage st cs).2) ∧
    ((cs.collaterals.map (fun col => col.ilkName)).Nodup →
      ∀ col ∈ cs.collaterals, col.ilkName ≠ "SAI" →
        0 < (cs.vatIlks col.ilkName).art →
        List.count (Call.cage col.ilkName) (check_cage st cs).2 = 1) ∧
    precedesAll (check_cage st cs).2 isYank isCage ∧
    precedesAll (check_cage st cs).2 isCage isSnipSkip := by
  have hstep : (check_cage st cs).2 = facilitate_processing_period cs := by
    unfold check_cage
    split_ifs <;> simp_all
  have hcolmem : ∀ col ∈ cs.collaterals, col.ilkName ≠ "SAI" →
      0 < (cs.vatIlks col.ilkName).art → col ∈ get_collaterals cs := by
    intro col hin hsai hart
    simp only [get_collaterals, List.mem_filter, decide_eq_true_eq]
    exact ⟨⟨hin, hsai⟩, hart⟩
  refine ⟨?mem, ?once, ?afterYank, ?beforeSnip⟩
  · intro col hin hsai hart
    rw [hstep, facilitate_decomp]
    refine List.mem_append.mpr (Or.inr (List.mem_append.mpr (Or.inl ?cg)))
    exact List.mem_map.mpr ⟨col.ilkName,
      List.mem_map.mpr ⟨col, hcolmem col hin hsai hart, rfl⟩, rfl⟩
  · intro hnodup col hin hsai hart
    rw [hstep, facilitate_decomp]
    rw [List.count_append, List.count_append, List.count_append, List.count_append]
    have hY : List.count (Call.cage col.ilkName)
        (yank_auctions (all_active_auctions cs).flaps (all_active_auctions cs).flops) = 0 := by
      rw [List.count_eq_zero]
      intro hmem
      have h := yank_auctions_calls _ _ _ hmem
      simp [isYank] at h
    have hSN : List.count (Call.cage col.ilkName)
        ((all_active_auctions cs).clips.flatMap
          (fun p => p.2.map (fun b => Call.snip p.1 b.id))) = 0 := by
      rw [List.count_eq_zero]
      intro hmem
      have h := snip_segment_calls _ _ hmem
      simp [isSnipSkip] at h
    have hSK : List.count (Call.cage col.ilkName)
        ((all_active_auctions cs).flips.flatMap
          (fun p => p.2.map (fun b => Call.skip p.1 b.id))) = 0 := by
      rw [List.count_eq_zero]
      intro hmem
      have h := skip_segment_calls _ _ hmem
      simp [isSnipSkip] at h
    have hSM : List.count (Call.cage col.ilkName)
        ((get_underwater_urns cs ((get_collaterals cs).map (fun l => l.ilkName))).map
          (fun u => Call.skim u.ilkName u.address)) = 0 := by
      rw [List.count_eq_zero]
      intro hmem
      have h := skim_segment_calls _ _ hmem
      simp [isSkim] at h
    have hinj : Function.Injective Call.cage := by
      intro x y hxy
      injection hxy
    have hsubc : (get_collaterals cs).Sublist cs.collaterals := by
      simp only [get_collaterals]
      exact (List.filter_sublist _).trans (List.filter_sublist _)
    have hnodup2 : ((get_collaterals cs).map (fun l => l.ilkName)).Nodup :=
      List.Nodup.sublist (List.Sublist.map _ hsubc) hnodup
    have hCG : List.count (Call.cage col.ilkName)
        (((get_collaterals cs).map (fun l => l.ilkName)).map Call.cage) = 1 := by
      rw [List.count_map_of_injective _ Call.cage hinj]
      exact List.count_eq_one_of_mem hnodup2
        (List.mem_map.mpr ⟨col, hcolmem col hin hsai hart, rfl⟩)
    rw [hY, hCG, hSN, hSK, hSM]
  · rw [hstep, facilitate_decomp]
    refine precedesAll_append ?noYankTail ?noCageHead
    · refine noCall_append
        (noCall_of_all (cage_segment_calls _) (fun c h => (cage_only c h).1))
        (noCall_append
          (noCall_of_all (snip_segment_calls _) (fun c h => (snipskip_only c h).1))
          (noCall_append
            (noCall_of_all (skip_segment_calls _) (fun c h => (snipskip_only c h).1))
            (noCall_of_all (skim_segment_calls _) (fun c h => (skim_only c h).1))))
    · exact noCall_of_all (yank_auctions_calls _ _) (fun c h => (yank_only c h).1)
  · rw [hstep, facilitate_decomp_mid]
    refine precedesAll_append ?noCageTail ?noSnipHead
    · refine noCall_append
        (noCall_of_all (snip_segment_calls _) (fun c h => (snipskip_only c h).2))
        (noCall_append
          (noCall_of_all (skip_segment_calls _) (fun c h => (snipskip_only c h).2))
          (noCall_of_all (skim_segment_calls _) (fun c h => (skim_only c h).2.1)))
    · exact noCall_append
        (noCall_of_all (yank_auctions_calls _ _) (fun c h => (yank_only c h).2))
        (noCall_of_all (cage_segment_calls _) (fun c h => (cage_only c h).2.1))

theorem C8_cage_each_indebted_ilk_witness :
    unfacilitatedState.confirmations = 12 ∧
    unfacilitatedState.cageFacilitated = false ∧
    thawChain.live = false ∧
    ethCollateral.ilkName ≠ "SAI" ∧
    0 < (thawChain.vatIlks ethCollateral.ilkName).art ∧
    Call.cage ethCollateral.ilkName ∈ (check_cage unfacilitatedState thawChain).2 :=
  ⟨rfl, rfl, rfl, by decide, by decide,
    (C8_cage_each_indebted_ilk unfacilitatedState thawChain rfl rfl rfl).1
      ethCollateral (by show ethCollateral ∈ [ethCollateral]; exact List.mem_cons_self _ _)
      (by decide) (by decide)⟩

/-- A caged deployment whose only collateral is the legacy SAI entry,
carrying positive debt. -/
def saiChain : ChainState :=
  { baseChain with
      collaterals := [{ ilkName := "SAI", clipper := none, flipper := none }]
      vatIlks := fun _ => { rate := 10 ^ 27, spot := 10 ^ 27, art := 10 ^ 18 } }

/-- C8 counterexample: the SAI collateral has positive outstanding debt on
the facilitating block, yet no End.cage call is submitted for it: the
claim that every collateral type with positive art is caged fails because
get_collaterals additionally filters the name SAI. -/
theorem C8_sai_not_caged_counterexample :
    (saiChain.collaterals.map (fun c => c.ilkName)) = ["SAI"] ∧
    0 < (saiChain.vatIlks "SAI").art ∧
    saiChain.live = false ∧
    unfacilitatedState.confirmations = 12 ∧
    unfacilitatedState.cageFacilitated = false ∧
    Call.cage "SAI" ∉ (check_cage unfacilitatedState saiChain).2 := by
  decide

/-- C9 (amended): on a thaw block, for every collateral type the keeper
processes — those not named SAI whose freshly read normalized debt is
positive — End.flow is submitted for the ilk, and ESM.deny is submitted
for its clip auction house when it has one and for its flip auction house
when it has one. -/
theorem C9_flow_deny_each_processed (st : KeeperState) (cs : ChainState)
    (hconf : st.confirmations = 12) (hflag : st.cageFacilitated = true)
    (hlive : cs.live = false) (htime : cs.whenUnix + cs.wait ≤ cs.now) :
    ∀ col ∈ get_collaterals cs,
      Call.flow col.ilkName ∈ (check_cage st cs).2 ∧
      (∀ cl, col.clipper = some cl → Call.deny cl.address ∈ (check_cage st cs).2) ∧
      (∀ fl, col.flipper = some fl → Call.deny fl.address ∈ (check_cage st cs).2) := by
  intro col hcol
  have hstep : (check_cage st cs).2 = thaw_cage cs ++ [Call.burn] := by
    unfold check_cage
    split_ifs <;> simp_all
  have hmemThaw : ∀ c ∈ Call.flow col.ilkName :: denyCalls col,
      c ∈ (check_cage st cs).2 := by
    intro c hc
    rw [hstep]
    refine List.mem_append.mpr (Or.inl ?inThaw)
    rw [thaw_cage_decomp]
    refine List.mem_append.mpr (Or.inr (List.mem_append.mpr (Or.inr
      (List.mem_append.mpr (Or.inl ?inLoop)))))
    exact List.mem_flatMap.mpr ⟨col, hcol, hc⟩
  refine ⟨hmemThaw _ (List.mem_cons_self _ _), ?clip, ?flip⟩
  · intro cl hcl
    have hdc : Call.deny cl.address ∈ denyCalls col := by
      simp only [denyCalls, hcl]
      exact List.mem_append.mpr (Or.inl (List.mem_singleton.mpr rfl))
    exact hmemThaw _ (List.mem_cons_of_mem _ hdc)
  · intro fl hfl
    have hdc : Call.deny fl.address ∈ denyCalls col := by
      simp only [denyCalls, hfl]
      exact List.mem_append.mpr (Or.inr (List.mem_singleton.mpr rfl))
    exact hmemThaw _ (List.mem_cons_of_mem _ hdc)

theorem C9_flow_deny_each_processed_witness :
    facilitatedState.confirmations = 12 ∧
    facilitatedState.cageFacilitated = true ∧
    thawChain.live = false ∧
    thawChain.whenUnix + thawChain.wait ≤ thawChain.now ∧
    Call.flow ethCollateral.ilkName ∈ (check_cage facilitatedState thawChain).2 ∧
    Call.deny flipFixture.address ∈ (check_cage facilitatedState thawChain).2 :=
  ⟨rfl, rfl, rfl, by decide,
    ((C9_flow_deny_each_processed facilitatedState thawChain rfl rfl rfl (by decide))
      ethCollateral
      (by show ethCollateral ∈ get_collaterals thawChain
          show ethCollateral ∈ [ethCollateral]
          exact List.mem_cons_self _ _)).1,
    ((C9_flow_deny_each_processed facilitatedState thawChain rfl rfl rfl (by decide))
      ethCollateral
      (by show ethCollateral ∈ get_collaterals thawChain
          show ethCollateral ∈ [ethCollateral]
          exact List.mem_cons_self _ _)).2.2 flipFixture rfl⟩

/-- A caged deployment past its thaw time with a debt-bearing SAI entry
and a debt-free ETH-A entry. -/
def staleChain : ChainState :=
  { baseChain with
      collaterals := [{ ilkName := "SAI", clipper := none, flipper := none },
                      { ilkName := "ETH-A", clipper := none, flipper := none }]
      vatIlks := fun n =>
        if n = "SAI"
        then { rate := 10 ^ 27, spot := 10 ^ 27, art := 10 ^ 18 }
        else { rate := 10 ^ 27, spot := 10 ^ 27, art := 0 } }

/-- C9 counterexample: the thaw block submits no End.flow for the SAI
collateral (excluded by name despite positive debt) nor for the ETH-A
collateral (excluded for zero debt), so the final redemption ratio is not
set for every collateral type. -/
theorem C9_flow_every_ilk_counterexample :
    (staleChain.collaterals.map (fun c => c.ilkName)) = ["SAI", "ETH-A"] ∧
    0 < (staleChain.vatIlks "SAI").art ∧
    staleChain.live = false ∧
    staleChain.whenUnix + staleChain.wait ≤ staleChain.now ∧
    facilitatedState.confirmations = 12 ∧
    facilitatedState.cageFacilitated = true ∧
    Call.flow "SAI" ∉ (check_cage facilitatedState staleChain).2 ∧
    Call.flow "ETH-A" ∉ (check_cage facilitatedState staleChain).2 := by
  decide

end CageKeeper
